import Mathlib

/-!
A shallow embedding of `prometheus_exporter/__init__.py` (the
`PrometheusExporter` wrapper around an external metric library).

Modelling conventions:
* Numeric values are rationals (`ℚ`); `timer()` differences are passed in as
  explicit elapsed-time parameters, so wall-clock nondeterminism becomes an
  input of the embedded functions.
* Python exceptions are `Except` errors.  Because Python mutates metric
  objects in place before an exception escapes, stateful loops return
  `Except (PyErr × St) St`: the error constructor carries the state reached
  at the moment the exception propagates.
* Metric objects live in a store `ℕ → MetricState` indexed by an opaque
  object id; the triples in the deferred set reference functions and metrics
  by id, mirroring Python object references.
* Each wrapped/deferred function is modelled by its call behaviour
  `ℕ → Except PyErr PyVal` (the result of its k-th invocation); the state
  tracks per-function invocation counts so that "invokes the function
  exactly once" is expressible.
-/

/-- Exceptions that the embedded code can raise: `ValueError` (the enum
guard and the external label binding), `TypeError` (a `float(resp)` coercion
failure), and exceptions raised by wrapped application functions. -/
inductive PyErr where
  | valueError (msg : String)
  | typeError (msg : String)
  | userExn (tag : String)
deriving DecidableEq

/-- A Python value as classified by `handle`'s coercion
`if not isinstance(resp, Number): resp = float(resp)`:
a `Number` instance with numeric value `q`, a non-`Number` value that
`float` converts to `q`, or a value on which `float` raises. -/
inductive PyVal where
  | num (q : ℚ)
  | floatable (q : ℚ)
  | nonFloatable (tag : String)
deriving DecidableEq

/-- The value `resp` after `if not isinstance(resp, Number): resp = float(resp)`:
a `Number` is kept as is, anything else is passed through `float`, which
either yields a number or raises. -/
def coerceNum : PyVal → Except PyErr ℚ
  | .num q => .ok q
  | .floatable q => .ok q
  | .nonFloatable tag => .error (.typeError tag)

/-- The sequence `resp = fn(); if not isinstance(resp, Number): resp = float(resp)` —
the function call followed by the numeric coercion; any exception
(from the call or from `float`) propagates. -/
def callCoerce (r : Except PyErr PyVal) : Except PyErr ℚ :=
  match r with
  | .error e => .error e
  | .ok v => coerceNum v

/-- The four decorator-backed metric kinds of the external library used by
`__register` (`Counter`, `Gauge`, `Histogram`, `Summary`). -/
inductive MetricKind where
  | counter
  | gauge
  | histogram
  | summary
deriving DecidableEq

/-- Observable state of one external metric object: its kind, its current
scalar value (counter total / gauge value) and its recorded observations
(histogram/summary).  Modelled from the spec: the external metric-store
primitives `increment/set/observe` act on this state (spec sections 3, 6). -/
structure MetricState where
  kind : MetricKind
  value : ℚ
  observations : List ℚ
deriving DecidableEq

instance : Inhabited MetricState := ⟨⟨.gauge, 0, []⟩⟩

/-- A freshly constructed metric of kind `k` (scalar value 0, nothing
observed yet). -/
def newMetric (k : MetricKind) : MetricState := ⟨k, 0, []⟩

/-- The update rules `metric_fn` bound at declaration time: the defaults are
`lambda m, t: m.inc()` (counter), `lambda m, v: m.set(v)` (gauge) and
`lambda m, t: m.observe(t)` (histogram/summary). -/
inductive UpdateRule where
  | inc
  | set
  | observe
deriving DecidableEq

/-- Applying an update rule `mfunc(metric, v)` to a metric state:
`inc` increments the value by 1 ignoring `v`, `set` sets the value to `v`,
`observe` appends `v` to the observations. -/
def applyRule : UpdateRule → MetricState → ℚ → MetricState
  | .inc, m, _ => { m with value := m.value + 1 }
  | .set, m, v => { m with value := v }
  | .observe, m, v => { m with observations := m.observations ++ [v] }

/-- One element of `self.deferred_metrics`: the triple
`(fn, mfunc, metric)` added by the decorator, with the function and the
metric referenced by object id. -/
structure DeferredEntry where
  fnId : ℕ
  rule : UpdateRule
  metricId : ℕ
deriving DecidableEq

/-- Python's `self.deferred_metrics.add(...)`: set insertion (no duplicates), with the
spec's insertion-order iteration. -/
def addDeferred (s : List DeferredEntry) (e : DeferredEntry) : List DeferredEntry :=
  if e ∈ s then s else s ++ [e]

/-- The registration performed by `decorator(f)` (line 293-295): when
`defer` is true the triple `(f, metric_fn, metric)` is added to the deferred
set, otherwise the set is untouched. -/
def decorate (defer : Bool) (rule : UpdateRule) (metricId fnId : ℕ)
    (s : List DeferredEntry) : List DeferredEntry :=
  if defer then addDeferred s ⟨fnId, rule, metricId⟩ else s

/-- One invocation of the wrapper `inner` (lines 297-308): call
`f(*args, **kwargs)` (its outcome is `res`); on an exception re-raise with
the metric untouched; on a normal return, if not deferred apply
`metric_fn(metric, max(timer() - start, 0))` and return the result, if
deferred return the result with the metric untouched. -/
def innerCall (defer : Bool) (rule : UpdateRule) (res : Except PyErr PyVal)
    (elapsed : ℚ) (m : MetricState) : Except PyErr PyVal × MetricState :=
  match res with
  | .error e => (.error e, m)
  | .ok v => if defer then (.ok v, m) else (.ok v, applyRule rule m (max elapsed 0))

/-- A sequence of invocations of the wrapper, folding the metric state;
each call is given by the outcome of its target-function call and its
elapsed time. -/
def runCalls (defer : Bool) (rule : UpdateRule)
    (calls : List (Except PyErr PyVal × ℚ)) (m : MetricState) : MetricState :=
  calls.foldl (fun acc c => (innerCall defer rule c.1 c.2 acc).2) m

/-- Whether a call outcome is a normal return. -/
def isOkRes : Except PyErr PyVal → Bool
  | .ok _ => true
  | .error _ => false

/-- Runtime state seen by `handle`: the store of metric objects (by object
id), the per-function invocation counts (by function object id; this models
"the function has been called k times so far"), and `self.deferred_metrics`
in insertion order. -/
structure ExpSt where
  metrics : ℕ → MetricState
  counts : ℕ → ℕ
  deferred : List DeferredEntry

/-- Pointwise bump of the invocation count of function `f`. -/
def bumpCounts (c : ℕ → ℕ) (f : ℕ) : ℕ → ℕ :=
  fun i => if i = f then c f + 1 else c i

/-- Pointwise replacement of the metric object `i` in the store. -/
def setMetric (ms : ℕ → MetricState) (i : ℕ) (m : MetricState) : ℕ → MetricState :=
  fun j => if j = i then m else ms j

/-- The body of `handle`'s loop (lines 112-125) for one triple
`(fn, mfunc, metric)`: invoke `fn()` (its k-th invocation, where k is the
current count) and coerce the result; on an exception the loop re-raises
with the invocation recorded and no metric touched; otherwise, if the metric
is a `Histogram` or `Summary` apply `mfunc(metric, max(timer() - start, 0))`
(the elapsed time `t`), else apply `mfunc(metric, resp)`. -/
def evalStep (env : ℕ → ℕ → Except PyErr PyVal) (t : ℚ) (e : DeferredEntry)
    (st : ExpSt) : Except (PyErr × ExpSt) ExpSt :=
  let k := st.counts e.fnId
  let st1 : ExpSt := { st with counts := bumpCounts st.counts e.fnId }
  match callCoerce (env e.fnId k) with
  | .error err => .error (err, st1)
  | .ok q =>
      let m := st1.metrics e.metricId
      let v := if m.kind = MetricKind.histogram ∨ m.kind = MetricKind.summary
               then max t 0 else q
      .ok { st1 with metrics := setMetric st1.metrics e.metricId (applyRule e.rule m v) }

/-- The loop `for fn, mfunc, metric in self.deferred_metrics: ...` — the loop over
the deferred set; `ts` supplies each iteration's elapsed time.  An exception
aborts the loop, carrying the state reached so far. -/
def evalEntries (env : ℕ → ℕ → Except PyErr PyVal) :
    List ℚ → List DeferredEntry → ExpSt → Except (PyErr × ExpSt) ExpSt
  | _, [], st => .ok st
  | ts, e :: rest, st =>
      match evalStep env (ts.headD 0) e st with
      | .error p => .error p
      | .ok st1 => evalEntries env ts.tail rest st1

/-- The method `PrometheusExporter.handle` (lines 103-128): run every deferred
collector, then encode the registry.  The encoder is external; the snapshot
is modelled as the serialized content of the metric store.  On an exception
no snapshot is produced and the error escapes with the state reached. -/
def handle (env : ℕ → ℕ → Except PyErr PyVal) (ts : List ℚ) (st : ExpSt) :
    Except (PyErr × ExpSt) ((ℕ → MetricState) × ExpSt) :=
  match evalEntries env ts st.deferred st with
  | .error p => .error p
  | .ok st1 => .ok (st1.metrics, st1)

/-- The deferred function environment for the C1 witness scenario: function
0 returns the number 3 on its first call and 5 afterwards. -/
def envC1 : ℕ → ℕ → Except PyErr PyVal :=
  fun _ k => .ok (.num (if k = 0 then 3 else 5))

/-- Initial state for the C1 witness: one fresh deferred gauge. -/
def stC1 : ExpSt :=
  ⟨fun _ => newMetric MetricKind.gauge, fun _ => 0, [⟨0, UpdateRule.set, 0⟩]⟩

/-- State after the first `handle` in the C1 witness scenario. -/
def stC1a : ExpSt :=
  ⟨setMetric stC1.metrics 0 ⟨MetricKind.gauge, 3, []⟩,
   bumpCounts stC1.counts 0, stC1.deferred⟩

/-- State after the second `handle` in the C1 witness scenario. -/
def stC1b : ExpSt :=
  ⟨setMetric stC1a.metrics 0 ⟨MetricKind.gauge, 5, []⟩,
   bumpCounts stC1a.counts 0, stC1a.deferred⟩

/-- The deferred function environment for the C2 scenario: function 0
returns the number 5, every other function raises. -/
def envC2 : ℕ → ℕ → Except PyErr PyVal :=
  fun f _ => if f = 0 then .ok (.num 5) else .error (.userExn "boom")

/-- Initial state for the C2 scenario: two fresh deferred gauges, set by
functions 0 and 1 respectively. -/
def stC2 : ExpSt :=
  ⟨fun _ => newMetric MetricKind.gauge, fun _ => 0,
   [⟨0, UpdateRule.set, 0⟩, ⟨1, UpdateRule.set, 1⟩]⟩

/-- C2 scenario state after the first entry has been evaluated. -/
def stC2a : ExpSt :=
  ⟨setMetric stC2.metrics 0 ⟨MetricKind.gauge, 5, []⟩,
   bumpCounts stC2.counts 0, stC2.deferred⟩

/-- C2 scenario state at the moment the second entry's function raises. -/
def stC2f : ExpSt :=
  ⟨stC2a.metrics, bumpCounts stC2a.counts 1, stC2a.deferred⟩

/-- The `states` argument of `PrometheusExporter.enum`, classified the way
Python's `states is None or not isinstance(states, (List, Tuple))` test
sees it: `None`, a list, a tuple, or a value of another type (a string or
a number, say). -/
inductive PyStatesArg where
  | pyNone
  | pyList (ss : List String)
  | pyTuple (ss : List String)
  | pyStr (s : String)
  | pyInt (n : ℤ)
deriving DecidableEq

/-- The enum metric handle produced by a successful declaration: the state
list forwarded to the external `Enum` constructor. -/
structure EnumMetric where
  states : List String
deriving DecidableEq

/-- The method `PrometheusExporter.enum` (lines 242-265), reduced to its states guard
and metric creation: raise `ValueError` if
`states is None or not isinstance(states, (List, Tuple))`, otherwise
construct the external `Enum` with the given states. -/
def enum_declare (states : PyStatesArg) : Except PyErr EnumMetric :=
  match states with
  | .pyNone => .error (.valueError "Enum requires a list of states")
  | .pyList ss => .ok ⟨ss⟩
  | .pyTuple ss => .ok ⟨ss⟩
  | .pyStr _ => .error (.valueError "Enum requires a list of states")
  | .pyInt _ => .error (.valueError "Enum requires a list of states")

/-- A Python `dict[str, str]` as an ordered association list with unique
keys.  `dictSet d k v` is the assignment `d[k] = v`: it overwrites the
value in place if the key exists, else appends the pair. -/
def dictSet : List (String × String) → String → String → List (String × String)
  | [], k, v => [(k, v)]
  | kv :: d, k, v => if kv.1 == k then (k, v) :: d else kv :: dictSet d k v

/-- Python's `d.update(u)`: assign every key/value pair of `u` into `d` in order. -/
def dictUpdate (d u : List (String × String)) : List (String × String) :=
  u.foldl (fun acc kv => dictSet acc kv.1 kv.2) d

/-- Python's `d.get(k)`: the value stored under key `k`, if any. -/
def dictLookup (d : List (String × String)) (k : String) : Option String :=
  (d.find? (fun kv => kv.1 == k)).map Prod.snd

/-- Constructor arguments of `PrometheusExporter(labels=…, registry=…)`;
`none` models an omitted or `None` argument. -/
structure ExporterArgs where
  labels : Option (List (String × String))
  registry : Option ℕ
deriving DecidableEq

/-- The default `prometheus_client` registry object (`REGISTRY`), as an
opaque object id. -/
def REGISTRY : ℕ := 0

/-- The exporter object: `_default_labels`, `registry` (an object id) and
`deferred_metrics`. -/
structure Exporter where
  default_labels : List (String × String)
  registry : ℕ
  deferred_metrics : List DeferredEntry
deriving DecidableEq

/-- The method `PrometheusExporter.__init__` (lines 89-101):
`self._default_labels = labels or ...` (a `None` or empty mapping becomes
the empty mapping), `self.registry = registry or REGISTRY`, and an empty
deferred set. -/
def exporterInit (a : ExporterArgs) : Exporter :=
  { default_labels :=
      match a.labels with
      | none => []
      | some l => if l.isEmpty then [] else l
    registry :=
      match a.registry with
      | none => REGISTRY
      | some r => r
    deferred_metrics := [] }

/-- The closure produced by the `singleton` decorator (lines 11-24): on a
construction call, build the instance only if none exists yet, then return
the stored instance together with the updated closure state. -/
def get_instance (inst : Option Exporter) (a : ExporterArgs) :
    Exporter × Option Exporter :=
  match inst with
  | none => (exporterInit a, some (exporterInit a))
  | some e => (e, some e)

/-- A sequence of `PrometheusExporter(...)` construction calls threaded
through the singleton closure, listing the instance each caller receives. -/
def runConstructions : Option Exporter → List ExporterArgs → List Exporter
  | _, [] => []
  | inst, a :: rest =>
      (get_instance inst a).1 :: runConstructions (get_instance inst a).2 rest

/-- The method `PrometheusExporter.__combine_labels` (lines 312-323):
`labels = labels.copy() if labels else ...` (a `None` or empty mapping
becomes the empty mapping; otherwise a copy), then
`if self._default_labels: labels.update(self._default_labels.copy())`,
returning the merged mapping.  The embedding is on dict values, so the
source's `.copy()` calls — which keep the caller's mapping and the stored
default labels unmodified — become the identity. -/
def combine_labels (ex : Exporter) (labels : Option (List (String × String))) :
    List (String × String) :=
  let l := match labels with
           | none => []
           | some l0 => if l0.isEmpty then [] else l0
  if ex.default_labels.isEmpty then l else dictUpdate l ex.default_labels

/-- A Python value supplied as a label value to the external `labels()`
binding: a plain string, or — as the source actually passes — a whole list
of strings as one value. -/
inductive LabelVal where
  | strVal (s : String)
  | listVal (vs : List String)
deriving DecidableEq

/-- Modelled from the spec: the external label binding
`handle.withLabelValues(values) -> boundHandle` (spec section 6) binds one
supplied value per declared label key, so a call whose number of supplied
values differs from the number of declared label keys fails with the metric
library's label-count error; the bound handle records the values as
supplied. -/
def withLabelValues (labelnames : List String) (args : List LabelVal) :
    Except PyErr (List LabelVal) :=
  if args.length = labelnames.length then .ok args
  else .error (.valueError "Incorrect label count")

/-- The label-binding step shared by `__register` (lines 288-291), `info`
(lines 235-237) and `enum` (lines 259-263): the metric is created with the
label keys, then
`if len(labels) > 0: metric = metric.labels(list(labels.values()))` —
the label values are passed to `labels()` as ONE argument holding the whole
value list (`none` means the metric stays unbound because it has no
labels). -/
def bindMetricLabels (labels : List (String × String)) :
    Except PyErr (Option (List LabelVal)) :=
  if labels.length > 0 then
    match withLabelValues (labels.map Prod.fst)
        [LabelVal.listVal (labels.map Prod.snd)] with
    | .error e => .error e
    | .ok bound => .ok (some bound)
  else .ok none

theorem runCalls_inc_value (calls : List (Except PyErr PyVal × ℚ))
    (m : MetricState) (h : ∀ c ∈ calls, isOkRes c.1 = true) :
    (runCalls false UpdateRule.inc calls m).value = m.value + calls.length := by
  induction calls generalizing m with
  | nil => simp [runCalls]
  | cons c rest ih =>
    have hc : isOkRes c.1 = true := h c (List.mem_cons_self c rest)
    have hrest : ∀ c ∈ rest, isOkRes c.1 = true :=
      fun x hx => h x (List.mem_cons_of_mem c hx)
    obtain ⟨v, hv⟩ : ∃ v, c.1 = Except.ok v := by
      cases hcc : c.1 with
      | ok v => exact ⟨v, rfl⟩
      | error e => rw [hcc] at hc; simp [isOkRes] at hc
    have : runCalls false UpdateRule.inc (c :: rest) m =
        runCalls false UpdateRule.inc rest (applyRule UpdateRule.inc m (max c.2 0)) := by
      simp [runCalls, hv, innerCall]
    rw [this, ih _ hrest]
    simp [applyRule]
    ring

/-- Claim C3: for a function wrapped by a non-deferred counter declaration
with the default update rule (`lambda m, t: m.inc()`), after any sequence of
N invocations that all return normally the counter's value equals N,
whatever the calls' arguments, return values and elapsed times. -/
theorem counter_value_equals_call_count
    (calls : List (Except PyErr PyVal × ℚ))
    (h : ∀ c ∈ calls, isOkRes c.1 = true) :
    (runCalls false UpdateRule.inc calls (newMetric MetricKind.counter)).value
      = calls.length := by
  have := runCalls_inc_value calls (newMetric MetricKind.counter) h
  simpa [newMetric] using this

theorem counter_value_equals_call_count_witness :
    (runCalls false UpdateRule.inc
        [(Except.ok (PyVal.num 7), 1), (Except.ok (PyVal.nonFloatable "x"), 2),
         (Except.ok (PyVal.floatable 3), 0)]
        (newMetric MetricKind.counter)).value = 3 :=
  counter_value_equals_call_count _ (by decide)

/-- Claim C4: for a non-deferred wrapper of any kind and any update rule, an
invocation whose target function raises propagates the exception unchanged
to the caller and leaves the metric state exactly as it was. -/
theorem nondeferred_exception_leaves_metric_unchanged
    (rule : UpdateRule) (e : PyErr) (elapsed : ℚ) (m : MetricState) :
    innerCall false rule (Except.error e) elapsed m = (Except.error e, m) := rfl

/-- Claim C5: applying the decorator with `defer = true` puts the triple
(target function, update rule, metric) into the deferred set, and the
returned wrapper is a passthrough: every invocation returns the target
function's outcome unchanged (normal return or exception) and never touches
the metric. -/
theorem deferred_decorator_registers_and_passes_through
    (rule : UpdateRule) (metricId fnId : ℕ) (s : List DeferredEntry) :
    (⟨fnId, rule, metricId⟩ : DeferredEntry) ∈ decorate true rule metricId fnId s ∧
    (∀ res elapsed m, innerCall true rule res elapsed m = (res, m)) := by
  refine ⟨?_, ?_⟩
  · show (⟨fnId, rule, metricId⟩ : DeferredEntry) ∈ addDeferred s ⟨fnId, rule, metricId⟩
    unfold addDeferred
    split
    · assumption
    · simp
  · intro res elapsed m
    cases res with
    | error e => rfl
    | ok v => rfl

theorem evalStep_deferred (env : ℕ → ℕ → Except PyErr PyVal) (t : ℚ)
    (e : DeferredEntry) (st st' : ExpSt) (h : evalStep env t e st = .ok st') :
    st'.deferred = st.deferred := by
  unfold evalStep at h
  cases hc : callCoerce (env e.fnId (st.counts e.fnId)) with
  | error err => simp [hc] at h
  | ok q => simp [hc] at h; rw [← h]

theorem evalStep_ok_inversion (env : ℕ → ℕ → Except PyErr PyVal) (t : ℚ)
    (e : DeferredEntry) (st st' : ExpSt) (h : evalStep env t e st = .ok st') :
    ∃ q, callCoerce (env e.fnId (st.counts e.fnId)) = .ok q ∧
      st' = { st with
        counts := bumpCounts st.counts e.fnId,
        metrics := setMetric st.metrics e.metricId
          (applyRule e.rule (st.metrics e.metricId)
            (if (st.metrics e.metricId).kind = MetricKind.histogram ∨
                (st.metrics e.metricId).kind = MetricKind.summary
             then max t 0 else q)) } := by
  unfold evalStep at h
  cases hc : callCoerce (env e.fnId (st.counts e.fnId)) with
  | error err => simp [hc] at h
  | ok q =>
      refine ⟨q, rfl, ?_⟩
      simp [hc] at h
      exact h.symm

theorem evalStep_error_inversion (env : ℕ → ℕ → Except PyErr PyVal) (t : ℚ)
    (e : DeferredEntry) (st : ExpSt) (p : PyErr × ExpSt)
    (h : evalStep env t e st = .error p) :
    p.2 = { st with counts := bumpCounts st.counts e.fnId } := by
  unfold evalStep at h
  cases hc : callCoerce (env e.fnId (st.counts e.fnId)) with
  | error err =>
      simp [hc] at h
      rw [← h]
  | ok q => simp [hc] at h

/-- Claim C6: during `handle`'s deferred evaluation, once a deferred
function's return value has been coerced to the number `q`, the update rule
is applied with the elapsed wall-clock time floored at zero when the bound
metric is a histogram or summary (the coerced value `q` is discarded), and
with `q` itself for every other metric kind. -/
theorem deferred_histogram_summary_use_elapsed_time
    (env : ℕ → ℕ → Except PyErr PyVal) (t : ℚ) (e : DeferredEntry)
    (st : ExpSt) (q : ℚ)
    (h : callCoerce (env e.fnId (st.counts e.fnId)) = .ok q) :
    ∃ st', evalStep env t e st = .ok st' ∧
      st'.metrics e.metricId =
        applyRule e.rule (st.metrics e.metricId)
          (if (st.metrics e.metricId).kind = MetricKind.histogram ∨
              (st.metrics e.metricId).kind = MetricKind.summary
           then max t 0 else q) := by
  refine ⟨?_, ?_, ?_⟩
  · exact { st with
      counts := bumpCounts st.counts e.fnId,
      metrics := setMetric st.metrics e.metricId
        (applyRule e.rule (st.metrics e.metricId)
          (if (st.metrics e.metricId).kind = MetricKind.histogram ∨
              (st.metrics e.metricId).kind = MetricKind.summary
           then max t 0 else q)) }
  · unfold evalStep
    simp [h]
  · simp [setMetric]

theorem deferred_histogram_summary_use_elapsed_time_witness :
    ∃ st', evalStep (fun _ _ => Except.ok (PyVal.num 9)) 4
        ⟨0, UpdateRule.observe, 0⟩
        ⟨fun _ => newMetric MetricKind.histogram, fun _ => 0, []⟩ = .ok st' ∧
      st'.metrics 0 =
        applyRule UpdateRule.observe (newMetric MetricKind.histogram)
          (if (newMetric MetricKind.histogram).kind = MetricKind.histogram ∨
              (newMetric MetricKind.histogram).kind = MetricKind.summary
           then max 4 0 else 9) :=
  deferred_histogram_summary_use_elapsed_time
    (fun _ _ => Except.ok (PyVal.num 9)) 4 ⟨0, UpdateRule.observe, 0⟩
    ⟨fun _ => newMetric MetricKind.histogram, fun _ => 0, []⟩ 9 rfl

theorem drop_tail_eq (ts : List ℚ) (n : ℕ) : ts.tail.drop n = ts.drop (n + 1) := by
  cases ts <;> simp

theorem evalEntries_deferred (env : ℕ → ℕ → Except PyErr PyVal)
    (ts : List ℚ) (l : List DeferredEntry) (st st' : ExpSt)
    (h : evalEntries env ts l st = .ok st') : st'.deferred = st.deferred := by
  induction l generalizing ts st with
  | nil =>
      unfold evalEntries at h
      cases h
      rfl
  | cons e rest ih =>
      unfold evalEntries at h
      cases hs : evalStep env (ts.headD 0) e st with
      | error p => rw [hs] at h; cases h
      | ok st1 =>
          rw [hs] at h
          have h1 := ih ts.tail st1 h
          rw [h1, evalStep_deferred env (ts.headD 0) e st st1 hs]

theorem evalEntries_cons (env : ℕ → ℕ → Except PyErr PyVal) (ts : List ℚ)
    (e : DeferredEntry) (rest : List DeferredEntry) (st : ExpSt) :
    evalEntries env ts (e :: rest) st =
      match evalStep env (ts.headD 0) e st with
      | .error p => .error p
      | .ok st1 => evalEntries env ts.tail rest st1 := rfl

theorem evalEntries_append_ok (env : ℕ → ℕ → Except PyErr PyVal)
    (ts : List ℚ) (l1 l2 : List DeferredEntry) (st st1 : ExpSt)
    (h : evalEntries env ts l1 st = .ok st1) :
    evalEntries env ts (l1 ++ l2) st = evalEntries env (ts.drop l1.length) l2 st1 := by
  induction l1 generalizing ts st with
  | nil =>
      unfold evalEntries at h
      cases h
      simp
  | cons e rest ih =>
      rw [evalEntries_cons] at h
      rw [show (e :: rest) ++ l2 = e :: (rest ++ l2) from rfl, evalEntries_cons]
      cases hs : evalStep env (ts.headD 0) e st with
      | error p => rw [hs] at h; cases h
      | ok stm =>
          rw [hs] at h
          simp only []
          rw [ih ts.tail stm h, drop_tail_eq]
          rfl

theorem evalEntries_append_error (env : ℕ → ℕ → Except PyErr PyVal)
    (ts : List ℚ) (l1 l2 : List DeferredEntry) (st : ExpSt) (p : PyErr × ExpSt)
    (h : evalEntries env ts l1 st = .error p) :
    evalEntries env ts (l1 ++ l2) st = .error p := by
  induction l1 generalizing ts st with
  | nil =>
      unfold evalEntries at h
      cases h
  | cons e rest ih =>
      rw [evalEntries_cons] at h
      rw [show (e :: rest) ++ l2 = e :: (rest ++ l2) from rfl, evalEntries_cons]
      cases hs : evalStep env (ts.headD 0) e st with
      | error p2 =>
          rw [hs] at h
          cases h
          simp
      | ok stm =>
          rw [hs] at h
          simp only []
          exact ih ts.tail stm h

theorem evalEntries_counts_frame (env : ℕ → ℕ → Except PyErr PyVal)
    (ts : List ℚ) (l : List DeferredEntry) (st st' : ExpSt) (f : ℕ)
    (h : evalEntries env ts l st = .ok st') (hf : ∀ a ∈ l, a.fnId ≠ f) :
    st'.counts f = st.counts f := by
  induction l generalizing ts st with
  | nil =>
      unfold evalEntries at h
      cases h
      rfl
  | cons e rest ih =>
      unfold evalEntries at h
      cases hs : evalStep env (ts.headD 0) e st with
      | error p => rw [hs] at h; cases h
      | ok st1 =>
          rw [hs] at h
          have h1 := ih ts.tail st1 h (fun a ha => hf a (List.mem_cons_of_mem e ha))
          obtain ⟨q, hq, hst1⟩ := evalStep_ok_inversion env (ts.headD 0) e st st1 hs
          rw [h1, hst1]
          have hne : e.fnId ≠ f := hf e (List.mem_cons_self e rest)
          simp only [bumpCounts]
          rw [if_neg (fun hcon => hne hcon.symm)]

theorem evalEntries_metrics_frame (env : ℕ → ℕ → Except PyErr PyVal)
    (ts : List ℚ) (l : List DeferredEntry) (st st' : ExpSt) (i : ℕ)
    (h : evalEntries env ts l st = .ok st') (hi : ∀ a ∈ l, a.metricId ≠ i) :
    st'.metrics i = st.metrics i := by
  induction l generalizing ts st with
  | nil =>
      unfold evalEntries at h
      cases h
      rfl
  | cons e rest ih =>
      unfold evalEntries at h
      cases hs : evalStep env (ts.headD 0) e st with
      | error p => rw [hs] at h; cases h
      | ok st1 =>
          rw [hs] at h
          have h1 := ih ts.tail st1 h (fun a ha => hi a (List.mem_cons_of_mem e ha))
          obtain ⟨q, hq, hst1⟩ := evalStep_ok_inversion env (ts.headD 0) e st st1 hs
          rw [h1, hst1]
          have hne : e.metricId ≠ i := hi e (List.mem_cons_self e rest)
          simp only [setMetric]
          rw [if_neg (fun hcon => hne hcon.symm)]

theorem handle_gauge_once (env : ℕ → ℕ → Except PyErr PyVal) (ts : List ℚ)
    (st : ExpSt) (l1 l2 : List DeferredEntry) (e : DeferredEntry)
    (snap : ℕ → MetricState) (st' : ExpSt)
    (hsplit : st.deferred = l1 ++ e :: l2)
    (hf : ∀ a, (a ∈ l1 ∨ a ∈ l2) → a.fnId ≠ e.fnId)
    (hm : ∀ a, (a ∈ l1 ∨ a ∈ l2) → a.metricId ≠ e.metricId)
    (hkind : (st.metrics e.metricId).kind = MetricKind.gauge)
    (hrule : e.rule = UpdateRule.set)
    (hok : handle env ts st = .ok (snap, st')) :
    st'.counts e.fnId = st.counts e.fnId + 1 ∧
    (∃ q, callCoerce (env e.fnId (st.counts e.fnId)) = .ok q ∧
      (st'.metrics e.metricId).value = q ∧
      (st'.metrics e.metricId).kind = MetricKind.gauge) ∧
    st'.deferred = st.deferred := by
  unfold handle at hok
  cases he : evalEntries env ts st.deferred st with
  | error p => rw [he] at hok; cases hok
  | ok stT =>
      rw [he] at hok
      simp only [Except.ok.injEq, Prod.mk.injEq] at hok
      obtain ⟨hsnap, hst'⟩ := hok
      subst hst'
      rw [hsplit] at he
      have hdef : stT.deferred = st.deferred := by
        have := evalEntries_deferred env ts (l1 ++ e :: l2) st stT he
        rw [this, hsplit]
      cases h1 : evalEntries env ts l1 st with
      | error p =>
          rw [evalEntries_append_error env ts l1 (e :: l2) st p h1] at he
          cases he
      | ok stA =>
          have he2 : evalEntries env (ts.drop l1.length) (e :: l2) stA = .ok stT := by
            rw [← evalEntries_append_ok env ts l1 (e :: l2) st stA h1]
            exact he
          have hfA : stA.counts e.fnId = st.counts e.fnId :=
            evalEntries_counts_frame env ts l1 st stA e.fnId h1
              (fun a ha => hf a (Or.inl ha))
          have hmA : stA.metrics e.metricId = st.metrics e.metricId :=
            evalEntries_metrics_frame env ts l1 st stA e.metricId h1
              (fun a ha => hm a (Or.inl ha))
          rw [evalEntries_cons] at he2
          cases hstep : evalStep env ((ts.drop l1.length).headD 0) e stA with
          | error p => rw [hstep] at he2; cases he2
          | ok stB =>
              rw [hstep] at he2
              obtain ⟨q, hq, hstB⟩ :=
                evalStep_ok_inversion env ((ts.drop l1.length).headD 0) e stA stB hstep
              have he3 : evalEntries env (ts.drop l1.length).tail l2 stB = .ok stT := he2
              have hfB : stT.counts e.fnId = stB.counts e.fnId :=
                evalEntries_counts_frame env _ l2 stB stT e.fnId he3
                  (fun a ha => hf a (Or.inr ha))
              have hmB : stT.metrics e.metricId = stB.metrics e.metricId :=
                evalEntries_metrics_frame env _ l2 stB stT e.metricId he3
                  (fun a ha => hm a (Or.inr ha))
              refine ⟨?_, ⟨q, ?_, ?_, ?_⟩, hdef⟩
              · rw [hfB, hstB]
                simp [bumpCounts, hfA]
              · rw [← hfA]
                exact hq
              · rw [hmB, hstB]
                simp [setMetric, applyRule, hrule, hmA, hkind]
              · rw [hmB, hstB]
                simp [setMetric, applyRule, hrule, hmA, hkind]

/-- Claim C1: for a gauge declared with `defer = true` (default rule
`m.set(v)`), whose deferred entry is the only one referencing its function
and its metric, two `handle()` calls with no intervening application calls
invoke the stored function exactly once per call (so exactly twice), the
gauge's final value is the numeric coercion of the function's latest return
value, and the entry is still in the deferred set afterwards, so later
snapshots re-run it. -/
theorem deferred_gauge_two_snapshots (env : ℕ → ℕ → Except PyErr PyVal)
    (ts ts' : List ℚ) (st : ExpSt) (l1 l2 : List DeferredEntry)
    (e : DeferredEntry) (snap1 : ℕ → MetricState) (stA : ExpSt)
    (snap2 : ℕ → MetricState) (stB : ExpSt)
    (hsplit : st.deferred = l1 ++ e :: l2)
    (hf : ∀ a, (a ∈ l1 ∨ a ∈ l2) → a.fnId ≠ e.fnId)
    (hm : ∀ a, (a ∈ l1 ∨ a ∈ l2) → a.metricId ≠ e.metricId)
    (hkind : (st.metrics e.metricId).kind = MetricKind.gauge)
    (hrule : e.rule = UpdateRule.set)
    (h1 : handle env ts st = .ok (snap1, stA))
    (h2 : handle env ts' stA = .ok (snap2, stB)) :
    stA.counts e.fnId = st.counts e.fnId + 1 ∧
    stB.counts e.fnId = st.counts e.fnId + 2 ∧
    (∃ q2, callCoerce (env e.fnId (st.counts e.fnId + 1)) = .ok q2 ∧
      (stB.metrics e.metricId).value = q2) ∧
    stB.deferred = st.deferred ∧
    e ∈ stB.deferred := by
  obtain ⟨hcnt1, ⟨q1, hq1, hval1, hkind1⟩, hdef1⟩ :=
    handle_gauge_once env ts st l1 l2 e snap1 stA hsplit hf hm hkind hrule h1
  have hsplitA : stA.deferred = l1 ++ e :: l2 := by rw [hdef1, hsplit]
  obtain ⟨hcnt2, ⟨q2, hq2, hval2, hkind2⟩, hdef2⟩ :=
    handle_gauge_once env ts' stA l1 l2 e snap2 stB hsplitA hf hm hkind1 hrule h2
  refine ⟨hcnt1, ?_, ⟨q2, ?_, hval2⟩, ?_, ?_⟩
  · rw [hcnt2, hcnt1]
  · rw [← hcnt1]
    exact hq2
  · rw [hdef2, hdef1]
  · rw [hdef2, hsplitA]
    exact List.mem_append_right l1 (List.mem_cons_self e l2)

theorem deferred_gauge_two_snapshots_witness :
    (stC1b.metrics 0).value = 5 ∧ stC1b.counts 0 = 2 ∧
    (⟨0, UpdateRule.set, 0⟩ : DeferredEntry) ∈ stC1b.deferred := by
  have h := deferred_gauge_two_snapshots envC1 [] [] stC1 [] []
      ⟨0, UpdateRule.set, 0⟩ stC1a.metrics stC1a stC1b.metrics stC1b
      rfl (by simp) (by simp) rfl rfl rfl rfl
  obtain ⟨-, hcnt, ⟨q2, hq2, hval⟩, -, hmem⟩ := h
  have h5 : callCoerce (envC1 0 (stC1.counts 0 + 1)) = .ok 5 := rfl
  rw [h5] at hq2
  have hq2' : (5 : ℚ) = q2 := by
    injection hq2
  refine ⟨?_, ?_, hmem⟩
  · rw [hval, ← hq2']
  · rw [hcnt]
    rfl

/-- Claim C2 (amended): when a deferred function raises (or its return value
cannot be coerced), the exception propagates unchanged out of `handle()` and
no serialized snapshot is returned; the failing entry's metric and the
metrics of entries not yet evaluated keep their previous values, and the
functions of entries after the failing one are not invoked — but entries
evaluated earlier in the same attempt have already had their metrics
updated. -/
theorem handle_deferred_failure_aborts (env : ℕ → ℕ → Except PyErr PyVal)
    (ts : List ℚ) (st : ExpSt) (l1 : List DeferredEntry) (e : DeferredEntry)
    (l2 : List DeferredEntry) (stA : ExpSt) (err : PyErr) (stf : ExpSt)
    (hsplit : st.deferred = l1 ++ e :: l2)
    (h1 : evalEntries env ts l1 st = .ok stA)
    (h2 : evalStep env ((ts.drop l1.length).headD 0) e stA = .error (err, stf)) :
    handle env ts st = .error (err, stf) ∧
    stf.metrics = stA.metrics ∧
    (∀ i, (∀ a ∈ l1, a.metricId ≠ i) → stf.metrics i = st.metrics i) ∧
    (∀ f, (∀ a ∈ l1, a.fnId ≠ f) → f ≠ e.fnId → stf.counts f = st.counts f) := by
  have hmetf : stf.metrics = stA.metrics := by
    have := evalStep_error_inversion env ((ts.drop l1.length).headD 0) e stA
      (err, stf) h2
    rw [show (err, stf).2 = stf from rfl] at this
    rw [this]
  have hcntf : stf.counts = bumpCounts stA.counts e.fnId := by
    have := evalStep_error_inversion env ((ts.drop l1.length).headD 0) e stA
      (err, stf) h2
    rw [show (err, stf).2 = stf from rfl] at this
    rw [this]
  refine ⟨?_, hmetf, ?_, ?_⟩
  · unfold handle
    rw [hsplit, evalEntries_append_ok env ts l1 (e :: l2) st stA h1,
      evalEntries_cons, h2]
  · intro i hi
    rw [hmetf]
    exact evalEntries_metrics_frame env ts l1 st stA i h1 hi
  · intro f hf hne
    rw [hcntf]
    have : bumpCounts stA.counts e.fnId f = stA.counts f := by
      simp only [bumpCounts]
      rw [if_neg hne]
    rw [this]
    exact evalEntries_counts_frame env ts l1 st stA f h1 hf

theorem handle_deferred_failure_aborts_witness :
    handle envC2 [] stC2 = .error (PyErr.userExn "boom", stC2f) ∧
    stC2f.metrics 1 = stC2.metrics 1 ∧ stC2f.counts 2 = stC2.counts 2 := by
  have h := handle_deferred_failure_aborts envC2 [] stC2
      [⟨0, UpdateRule.set, 0⟩] ⟨1, UpdateRule.set, 1⟩ [] stC2a
      (PyErr.userExn "boom") stC2f rfl rfl rfl
  refine ⟨h.1, ?_, ?_⟩
  · exact h.2.2.1 1 (by decide)
  · exact h.2.2.2 2 (by decide) (by decide)

/-- Claim C2 counterexample: with two deferred gauges whose second function
raises, `handle()` aborts with the exception and returns no snapshot, but
the FIRST gauge — another deferred metric — has already been updated in
that same failed attempt (its value goes from 0 to 5), so it is false that
no other deferred metric's value is updated for the attempt. -/
theorem handle_deferred_failure_updates_earlier_metric :
    handle envC2 [] stC2 = .error (PyErr.userExn "boom", stC2f) ∧
    (stC2.metrics 0).value = 0 ∧ (stC2f.metrics 0).value = 5 := by
  refine ⟨rfl, rfl, rfl⟩

/-- Claim C7 counterexample: declaring an enum with `states=[]` (an empty
list) does NOT fail — `[] is None` is false and `isinstance([], (List,
Tuple))` is true, so the guard passes the empty list through and the metric
is created with an empty state list. -/
theorem enum_declare_empty_list_succeeds :
    enum_declare (PyStatesArg.pyList []) = Except.ok ⟨[]⟩ ∧
    ∀ err, enum_declare (PyStatesArg.pyList []) ≠ Except.error err := by
  refine ⟨rfl, ?_⟩
  intro err h
  simp [enum_declare] at h

/-- Claim C7 (amended): declaring an enum with `states=None`, or with a
states argument that is not a list or tuple (a string, a number), fails
immediately with `ValueError` and no metric is created; an empty list
`states=[]`, however, passes the guard and the metric is created with an
empty state list (the list and tuple cases succeed for every state list). -/
theorem enum_declare_guard (s : String) (n : ℤ) (ss : List String) :
    enum_declare PyStatesArg.pyNone =
      Except.error (PyErr.valueError "Enum requires a list of states") ∧
    enum_declare (PyStatesArg.pyStr s) =
      Except.error (PyErr.valueError "Enum requires a list of states") ∧
    enum_declare (PyStatesArg.pyInt n) =
      Except.error (PyErr.valueError "Enum requires a list of states") ∧
    enum_declare (PyStatesArg.pyList ss) = Except.ok ⟨ss⟩ ∧
    enum_declare (PyStatesArg.pyTuple ss) = Except.ok ⟨ss⟩ :=
  ⟨rfl, rfl, rfl, rfl, rfl⟩

theorem runConstructions_some (e : Exporter) (l : List ExporterArgs) :
    runConstructions (some e) l = List.replicate l.length e := by
  induction l with
  | nil => rfl
  | cons a rest ih =>
      show e :: runConstructions (some e) rest = _
      rw [ih]
      rfl

/-- Claim C9: in any sequence of two or more `PrometheusExporter(...)`
constructions, the first call builds the instance from its own arguments
and every later call returns that identical instance; the later calls'
labels and registry arguments are silently ignored, so every returned
exporter's default labels and registry are those of the first
construction. -/
theorem singleton_returns_first_instance (a1 : ExporterArgs)
    (rest : List ExporterArgs) :
    runConstructions none (a1 :: rest) =
      List.replicate (rest.length + 1) (exporterInit a1) ∧
    ∀ ex ∈ runConstructions none (a1 :: rest),
      ex.default_labels = (exporterInit a1).default_labels ∧
      ex.registry = (exporterInit a1).registry := by
  have hrun : runConstructions none (a1 :: rest) =
      exporterInit a1 :: runConstructions (some (exporterInit a1)) rest := rfl
  constructor
  · rw [hrun, runConstructions_some]
    rfl
  · intro ex hex
    rw [hrun, runConstructions_some] at hex
    rcases List.mem_cons.mp hex with h | h
    · rw [h]
      exact ⟨rfl, rfl⟩
    · rw [List.eq_of_mem_replicate h]
      exact ⟨rfl, rfl⟩

theorem dictLookup_dictSet_self (d : List (String × String)) (k v : String) :
    dictLookup (dictSet d k v) k = some v := by
  induction d with
  | nil => simp [dictSet, dictLookup]
  | cons kv d ih =>
      by_cases h : kv.1 == k
      · simp [dictSet, h, dictLookup]
      · simp only [dictSet, h]
        rw [if_neg (by simp [h])]
        simp only [dictLookup] at ih ⊢
        rw [List.find?_cons_of_neg _ (by simp_all)]
        exact ih

theorem dictLookup_dictSet_other (d : List (String × String)) (k v k' : String)
    (hne : k' ≠ k) : dictLookup (dictSet d k v) k' = dictLookup d k' := by
  induction d with
  | nil =>
      simp [dictSet, dictLookup, List.find?_cons_of_neg, hne]
      intro h
      exact absurd h.symm hne
  | cons kv d ih =>
      by_cases h : kv.1 == k
      · simp only [dictSet, h, if_pos]
        simp only [dictLookup]
        rw [List.find?_cons_of_neg _ (by simpa using fun hh => absurd hh.symm hne),
          List.find?_cons_of_neg _ (by
            have hk : kv.1 = k := eq_of_beq h
            simpa [hk] using fun hh => absurd hh.symm hne)]
      · simp only [dictSet, h]
        rw [if_neg (by simp [h])]
        simp only [dictLookup] at ih ⊢
        by_cases hk : kv.1 == k'
        · rw [List.find?_cons_of_pos _ (by simpa using hk),
            List.find?_cons_of_pos _ (by simpa using hk)]
        · rw [List.find?_cons_of_neg _ (by simpa using hk),
            List.find?_cons_of_neg _ (by simpa using hk)]
          exact ih

theorem dictLookup_not_mem (u : List (String × String)) (k : String)
    (h : k ∉ u.map Prod.fst) : dictLookup u k = none := by
  induction u with
  | nil => rfl
  | cons kv u ih =>
      simp only [List.map_cons, List.mem_cons] at h
      push_neg at h
      simp only [dictLookup]
      rw [List.find?_cons_of_neg _ (by simpa using fun hh => absurd hh.symm h.1)]
      exact ih h.2

theorem dictLookup_dictUpdate (d u : List (String × String)) (k : String)
    (hu : (u.map Prod.fst).Nodup) :
    dictLookup (dictUpdate d u) k =
      match dictLookup u k with
      | some v => some v
      | none => dictLookup d k := by
  induction u generalizing d with
  | nil => simp [dictUpdate, dictLookup]
  | cons kv u ih =>
      simp only [List.map_cons, List.nodup_cons] at hu
      have hstep : dictUpdate d (kv :: u) = dictUpdate (dictSet d kv.1 kv.2) u := rfl
      rw [hstep, ih (dictSet d kv.1 kv.2) hu.2]
      by_cases hk : k = kv.1
      · subst hk
        rw [dictLookup_not_mem u kv.1 hu.1]
        have hhead : dictLookup (kv :: u) kv.1 = some kv.2 := by
          simp only [dictLookup]
          rw [List.find?_cons_of_pos _ (by simp)]
          rfl
        rw [hhead]
        simp only []
        exact dictLookup_dictSet_self d kv.1 kv.2
      · have hhead : dictLookup (kv :: u) k = dictLookup u k := by
          simp only [dictLookup]
          rw [List.find?_cons_of_neg _ (by simpa using fun hh => absurd hh.symm hk)]
        rw [hhead]
        cases dictLookup u k with
        | some v => rfl
        | none =>
            simp only []
            exact dictLookup_dictSet_other d kv.1 kv.2 k hk

/-- Claim C8: the label merge returns the per-call labels overwritten by
the default labels — on a key collision the default label's value wins, a
key present only in the per-call labels keeps its per-call value, and
absent per-call labels are treated as empty; concretely, merging per-call
`a=1` into defaults `a=2` yields `a=2`.  The merge is pure: it operates on
copies, so the caller's mapping and the stored default labels are
unmodified (in the embedding this is value semantics by construction). -/
theorem combine_labels_default_wins (ex : Exporter)
    (labels : Option (List (String × String))) (k : String)
    (hnd : (ex.default_labels.map Prod.fst).Nodup) :
    (∀ v, dictLookup ex.default_labels k = some v →
      dictLookup (combine_labels ex labels) k = some v) ∧
    (dictLookup ex.default_labels k = none →
      dictLookup (combine_labels ex labels) k =
        dictLookup (labels.getD []) k) ∧
    combine_labels
      { default_labels := [("a", "2")], registry := 0, deferred_metrics := [] }
      (some [("a", "1")]) = [("a", "2")] := by
  have hbase : dictLookup
      (match labels with
       | none => []
       | some l0 => if l0.isEmpty then [] else l0) k =
      dictLookup (labels.getD []) k := by
    cases labels with
    | none => rfl
    | some l0 =>
        by_cases h0 : l0.isEmpty
        · rw [List.isEmpty_iff] at h0
          simp [h0]
        · simp [h0]
  refine ⟨?_, ?_, by decide⟩
  · intro v hv
    unfold combine_labels
    have hne : ¬ ex.default_labels.isEmpty := by
      intro hcon
      rw [List.isEmpty_iff] at hcon
      rw [hcon] at hv
      simp [dictLookup] at hv
    rw [if_neg hne, dictLookup_dictUpdate _ _ _ hnd, hv]
  · intro hv
    unfold combine_labels
    by_cases hne : ex.default_labels.isEmpty
    · rw [if_pos hne]
      exact hbase
    · rw [if_neg hne, dictLookup_dictUpdate _ _ _ hnd, hv]
      exact hbase

theorem combine_labels_default_wins_witness :
    dictLookup
      (combine_labels
        { default_labels := [("a", "2"), ("b", "3")], registry := 0,
          deferred_metrics := [] }
        (some [("a", "1"), ("c", "9")])) "a" = some "2" ∧
    dictLookup
      (combine_labels
        { default_labels := [("a", "2"), ("b", "3")], registry := 0,
          deferred_metrics := [] }
        (some [("a", "1"), ("c", "9")])) "c" = some "9" := by
  constructor
  · exact (combine_labels_default_wins
      { default_labels := [("a", "2"), ("b", "3")], registry := 0,
        deferred_metrics := [] }
      (some [("a", "1"), ("c", "9")]) "a" (by decide)).1 "2" (by decide)
  · exact ((combine_labels_default_wins
      { default_labels := [("a", "2"), ("b", "3")], registry := 0,
        deferred_metrics := [] }
      (some [("a", "1"), ("c", "9")]) "c" (by decide)).2.1 (by decide)).trans
      (by decide)

/-- Claim C10: every declaration path (`__register` on the merged labels,
and `info`/`enum` on their labels) passes the label values to the external
`labels()` binding as one single list argument; hence with two or more
labels the binding receives the wrong number of values and the declaration
fails with the label-count error, and with exactly one label the bound
label value is the one-element list, not the declared string value. -/
theorem labels_passed_as_single_list (ex : Exporter)
    (labels : Option (List (String × String)))
    (h2 : 2 ≤ (combine_labels ex labels).length) :
    bindMetricLabels (combine_labels ex labels) =
      Except.error (PyErr.valueError "Incorrect label count") ∧
    (∀ k v, bindMetricLabels [(k, v)] =
        Except.ok (some [LabelVal.listVal [v]]) ∧
      LabelVal.listVal [v] ≠ LabelVal.strVal v) := by
  constructor
  · unfold bindMetricLabels withLabelValues
    rw [if_pos (by omega)]
    rw [if_neg (by
      simp only [List.length_map, List.length_singleton]
      omega)]
  · intro k v
    constructor
    · rfl
    · intro h
      cases h

theorem labels_passed_as_single_list_witness :
    bindMetricLabels
      (combine_labels
        { default_labels := [("a", "1"), ("b", "2")], registry := 0,
          deferred_metrics := [] } none) =
      Except.error (PyErr.valueError "Incorrect label count") ∧
    bindMetricLabels [("a", "1")] =
      Except.ok (some [LabelVal.listVal ["1"]]) :=
  ⟨(labels_passed_as_single_list
      { default_labels := [("a", "1"), ("b", "2")], registry := 0,
        deferred_metrics := [] } none (by decide)).1,
   ((labels_passed_as_single_list
      { default_labels := [("a", "1"), ("b", "2")], registry := 0,
        deferred_metrics := [] } none (by decide)).2 "a" "1").1⟩
